import Mathlib

/-!
Verification of the tool-registration and invocation-adaptation layer of the
`mcp-io` Go library (package `mcpio`).

The embedding is shallow: Go byte slices become `String`, Go `(T, error)`
return pairs become `T × Option GoError`, Go functions that return only an
error become `Except GoError T`, and the external MCP runtime (`mcp.Server`)
is modelled by the sequence of tool registrations it receives, which is the
only part of it this layer observes. JSON encoding/decoding is an external
library dependency of the source, so the raw adapter is parametrised over
the decoder it consults.
-/

set_option autoImplicit false

namespace Mcpio

/-- `ToolError` from `errors.go`: a tool execution error returned to the
client as part of the result with the is-error flag set. -/
structure ToolError where
  Message : String
  Code : String
deriving DecidableEq, Repr

/-- `ToolError.Error` from `errors.go`: renders `"[CODE] message"` when the
code is non-empty, otherwise just the message. -/
def ToolError.Error (e : ToolError) : String :=
  if e.Code != "" then "[" ++ e.Code ++ "] " ++ e.Message
  else e.Message

/-- `NewToolError` from `errors.go`. -/
def NewToolError (message : String) : ToolError :=
  { Message := message, Code := "" }

/-- `NewToolErrorWithCode` from `errors.go`. -/
def NewToolErrorWithCode (message code : String) : ToolError :=
  { Message := message, Code := code }

/-- `ValidationError` from `errors.go`. -/
def ValidationError (message : String) : ToolError :=
  { Message := message, Code := "VALIDATION_ERROR" }

/-- `ProcessingError` from `errors.go`. -/
def ProcessingError (message : String) : ToolError :=
  { Message := message, Code := "PROCESSING_ERROR" }

/-- A Go `error` value as this layer can observe it: a `*ToolError`, one of
the package's sentinel errors from `errors.go`, an arbitrary other error
(e.g. from a user function or the JSON library), a `fmt.Errorf("...: %w")`
wrap, or an `errors.Join` of two errors. -/
inductive GoError where
  | toolError (e : ToolError)
  | errEmptyName
  | errEmptyVersion
  | errEmptyToolName
  | errNilSchema
  | errNilFunction
  | errNilServer
  | errNilEvaluator
  | errDuplicateTool
  | errInvalidOperation
  | errInvalidJSON
  | errorString (msg : String)
  | wrapped (note : String) (inner : GoError)
  | joined (a b : GoError)
deriving DecidableEq, Repr

/-- Rendering of a Go error value (its `Error()` string): sentinel messages
from `errors.go`, `fmt.Errorf` prefixing for wraps, newline joining for
`errors.Join`. -/
def GoError.render : GoError → String
  | .toolError e => e.Error
  | .errEmptyName => "name cannot be empty"
  | .errEmptyVersion => "version cannot be empty"
  | .errEmptyToolName => "tool name cannot be empty"
  | .errNilSchema => "schema cannot be nil"
  | .errNilFunction => "function cannot be nil"
  | .errNilServer => "server cannot be nil"
  | .errNilEvaluator => "evaluator cannot be nil"
  | .errDuplicateTool => "tool already registered"
  | .errInvalidOperation => "invalid operation"
  | .errInvalidJSON => "tool returned invalid JSON"
  | .errorString m => m
  | .wrapped note inner => note ++ ": " ++ inner.render
  | .joined a b => a.render ++ "\n" ++ b.render

/-- Go `errors.Is(e, target)`: identity comparison at each level of the
unwrap chain, descending into both branches of a join. -/
def GoError.is (e target : GoError) : Bool :=
  match e with
  | .wrapped note inner => (GoError.wrapped note inner == target) || inner.is target
  | .joined a b => (GoError.joined a b == target) || a.is target || b.is target
  | e' => e' == target

/-- Go `errors.As(err, &toolErr)` with target type `*ToolError`: finds the
first `ToolError` in the unwrap chain (left branch of a join first). -/
def GoError.asToolError : GoError → Option ToolError
  | .toolError e => some e
  | .wrapped _ inner => inner.asToolError
  | .joined a b =>
    match a.asToolError with
    | some e => some e
    | none => b.asToolError
  | _ => none

/-- `mcp.CallToolResult` as this layer constructs it: a list of text
contents and the is-error flag. -/
structure CallToolResult where
  Content : List String
  IsError : Bool := false
deriving DecidableEq, Repr

/-- `RawToolFunc` from the source: `(context, bytes) -> (bytes, error)`;
bytes are modelled as strings, the context is irrelevant to this layer. -/
def RawToolFunc := String → String × Option GoError

/-- `createRawHandler` from `handler.go`, applied to one invocation.
`decodeErr` models the external `json.Unmarshal` check on the tool's output
(`none` = the bytes decode, `some e` = decode fails with `e`); `argsMarshal`
models the outcome of `json.Marshal(req.Params.Arguments)`. The result pair
is Go's `(*mcp.CallToolResult, error)`. -/
def createRawHandler (decodeErr : String → Option GoError) (fn : RawToolFunc)
    (argsMarshal : Except GoError String) :
    Option CallToolResult × Option GoError :=
  match argsMarshal with
  | .error err =>
    (some { Content := ["Failed to marshal input: " ++ err.render], IsError := true }, none)
  | .ok inputJSON =>
    match fn inputJSON with
    | (_, some err) =>
      match err.asToolError with
      | some toolErr => (some { Content := [toolErr.Message], IsError := true }, none)
      | none => (none, some err)
    | (outputJSON, none) =>
      match decodeErr outputJSON with
      | some e => (none, some (.joined .errInvalidJSON e))
      | none => (some { Content := [outputJSON], IsError := false }, none)

/-- `createTypedHandler` from `handler.go`, applied to one invocation: the
runtime has already deserialized the input. The user function returns Go's
`(TOut, error)` pair; the adapter returns `(*mcp.CallToolResult, TOut,
error)`, with `default` standing for Go's zero value `var zero TOut`. -/
def createTypedHandler {TIn TOut : Type} [Inhabited TOut]
    (fn : TIn → TOut × Option GoError) (input : TIn) :
    Option CallToolResult × TOut × Option GoError :=
  match fn input with
  | (_, some err) =>
    match err.asToolError with
    | some _ => (none, (default : TOut), some err)
    | none => (none, (default : TOut), some err)
  | (output, none) => (none, output, none)

/-- A property schema: the fragment of the external `jsonschema.Schema`
type that `schema.go` stores under a property name (type tag, description,
optional enum; the source never nests deeper). `[]` models an unset (nil)
slice. `type_` is the Go field `Type`. -/
structure PropSchema where
  type_ : String := ""
  Description : String := ""
  Enum : List String := []
deriving DecidableEq, Repr

/-- A top-level schema: the fragment of the external `jsonschema.Schema`
type that this layer constructs and hands to the runtime. `Properties`
models Go's `map[string]*jsonschema.Schema` as an association list with
unique keys (`mapSet` below gives the map's last-write-wins update);
`Required = []` and `Enum = []` model nil slices. -/
structure Schema where
  type_ : String := ""
  Description : String := ""
  Properties : List (String × PropSchema) := []
  Required : List String := []
  Enum : List String := []
deriving DecidableEq, Repr

/-- Go map assignment `m[k] = v`: replace the binding if the key is
present, otherwise add it. -/
def mapSet : List (String × PropSchema) → String → PropSchema → List (String × PropSchema)
  | [], k, v => [(k, v)]
  | (k', v') :: rest, k, v =>
    if k' = k then (k, v) :: rest else (k', v') :: mapSet rest k v

/-- Go map lookup `m[k]`. -/
def mapGet : List (String × PropSchema) → String → Option PropSchema
  | [], _ => none
  | (k', v') :: rest, k => if k' = k then some v' else mapGet rest k

/-- `FieldDef` from `schema.go`: a field for dynamic schema construction. -/
structure FieldDef where
  Name : String
  type_ : String
  Description : String
  Required : Bool
  Enum : List String := []
deriving DecidableEq, Repr

/-- One iteration of the loop body of `CreateDynamicSchema`: build the
property schema for `field` (setting `Enum` only when non-empty), store it
under the field's name, and append the name to the required list when the
field is flagged required. -/
def dynamicSchemaStep (acc : List (String × PropSchema) × List String)
    (field : FieldDef) : List (String × PropSchema) × List String :=
  let schema : PropSchema :=
    { type_ := field.type_
      Description := field.Description
      Enum := if field.Enum.length > 0 then field.Enum else [] }
  let properties := mapSet acc.1 field.Name schema
  let required := if field.Required then acc.2 ++ [field.Name] else acc.2
  (properties, required)

/-- `CreateDynamicSchema` from `schema.go`: constructs a JSON schema from
field definitions. -/
def CreateDynamicSchema (fields : List FieldDef) : Schema :=
  let r := fields.foldl dynamicSchemaStep ([], [])
  { type_ := "object", Properties := r.1, Required := r.2 }

/-- `mcp.Tool` metadata as this layer fills it in: name, description, and
the explicit input schema when one is supplied (the typed path leaves it
for the runtime's schema inference). -/
structure McpTool where
  Name : String
  Description : String
  InputSchema : Option Schema := none

/-- The handler value passed along with a tool registration: the typed path
goes through the runtime's generic `mcp.AddTool` (its handler is
`createTypedHandler fn` at the user's types, opaque here); the raw path
passes `createRawHandler fn` for a possibly-nil `fn` through
`server.AddTool`. -/
inductive RegisteredHandler where
  | typedHandler
  | rawHandler (fn : Option RawToolFunc)

/-- One tool as registered on the runtime instance: the metadata plus the
adapted handler. -/
structure ServerTool where
  tool : McpTool
  handler : RegisteredHandler

/-- `mcp.Implementation`: the name/version record a fresh server is built
from. -/
structure Implementation where
  Name : String
  Version : String
deriving DecidableEq, Repr

/-- The external `mcp.Server`, modelled by what this layer observes of it:
the implementation record it was built from and the ordered sequence of
tool registrations it has received. -/
structure McpServer where
  impl : Implementation
  tools : List ServerTool := []

/-- A registration call on the server (`server.AddTool` / `mcp.AddTool`):
appends one tool. -/
def McpServer.AddTool (s : McpServer) (t : McpTool) (h : RegisteredHandler) : McpServer :=
  { s with tools := s.tools ++ [{ tool := t, handler := h }] }

/-- `toolRegistration` from the source: holds a function to register a tool
on the server. -/
structure toolRegistration where
  registerFunc : McpServer → McpServer

/-- `handlerConfig` from the source: the configuration record built by
options. `server = none` models the nil pointer (no injected server). -/
structure handlerConfig where
  name : String
  version : String
  tools : List toolRegistration
  server : Option McpServer

/-- The Go functional-option type `Option` (named `ConfigOption` here since
`Option` is taken in Lean): a function from the configuration record to a
possibly-failing updated record. -/
def ConfigOption := handlerConfig → Except GoError handlerConfig

/-- `WithName` from the options source: sets the server name, rejecting the
empty string. -/
def WithName (name : String) : ConfigOption := fun cfg =>
  if name = "" then .error .errEmptyName
  else .ok { cfg with name := name }

/-- `WithVersion` from the options source: sets the server version,
rejecting the empty string. -/
def WithVersion (version : String) : ConfigOption := fun cfg =>
  if version = "" then .error .errEmptyVersion
  else .ok { cfg with version := version }

/-- `WithTool` from the options source: adds a type-safe tool. `fn` is the
user function as a Go func value, so possibly nil (`none`); the option
never inspects it. The registration attaches the tool through the generic
`mcp.AddTool` path (schema inference and `createTypedHandler fn` happen in
the runtime's generic machinery, opaque here). -/
def WithTool {TIn TOut : Type} (name description : String)
    (fn : Option (TIn → TOut × Option GoError)) : ConfigOption := fun cfg =>
  if name = "" then .error .errEmptyToolName
  else
    let registerFunc : McpServer → McpServer := fun server =>
      server.AddTool { Name := name, Description := description } .typedHandler
    .ok { cfg with tools := cfg.tools ++ [{ registerFunc := registerFunc }] }

/-- `WithRawTool` from the options source: adds a tool with manual JSON
handling and an explicit schema. `inputSchema = none` models a nil schema
pointer, `fn = none` a nil func value (never checked). -/
def WithRawTool (name description : String) (inputSchema : Option Schema)
    (fn : Option RawToolFunc) : ConfigOption := fun cfg =>
  if name = "" then .error .errEmptyToolName
  else
    match inputSchema with
    | none => .error .errNilSchema
    | some schema =>
      let registerFunc : McpServer → McpServer := fun server =>
        server.AddTool { Name := name, Description := description, InputSchema := some schema }
          (.rawHandler fn)
      .ok { cfg with tools := cfg.tools ++ [{ registerFunc := registerFunc }] }

/-- `ScriptEvaluator` from the source: the two-method capability set of a
script engine. -/
structure ScriptEvaluator where
  Execute : String → String × Option GoError
  GetTimeout : Nat

/-- `WithScriptTool` from the options source: adds a tool backed by a
script evaluator, delegating to `WithRawTool` with a generic object schema
and the evaluator's `Execute` wrapped as the raw function. `evaluator =
none` models a nil interface value. -/
def WithScriptTool (name description : String)
    (evaluator : Option ScriptEvaluator) : ConfigOption := fun cfg =>
  if name = "" then .error .errEmptyToolName
  else
    match evaluator with
    | none => .error .errNilEvaluator
    | some ev =>
      let inputSchema : Schema :=
        { type_ := "object", Description := "Input data for script execution" }
      let rawFunc : RawToolFunc := fun input => ev.Execute input
      WithRawTool name description (some inputSchema) (some rawFunc) cfg

/-- `WithServer` from the options source: injects a custom server,
rejecting nil. -/
def WithServer (server : Option McpServer) : ConfigOption := fun cfg =>
  match server with
  | none => .error .errNilServer
  | some s => .ok { cfg with server := some s }

/-- `Handler` from `handler.go`: the façade holding the constructed server
(the HTTP transport wrapper is external glue and carries no state of this
layer). -/
structure Handler where
  server : McpServer

/-- The option-application loop of `New`: apply each option in order,
stopping at the first error. -/
def applyOptions : List ConfigOption → handlerConfig → Except GoError handlerConfig
  | [], cfg => .ok cfg
  | opt :: rest, cfg =>
    match opt cfg with
    | .error err => .error err
    | .ok cfg' => applyOptions rest cfg'

/-- The initial configuration record of `New`, with the default name and
version. -/
def initialConfig : handlerConfig :=
  { name := "mcp-server", version := "1.0.0", tools := [], server := none }

/-- `New` from `handler.go`: apply all options (wrapping the first failure
with `"failed to apply option: %w"`), then use the injected server or build
a fresh one from name/version, then replay every collected tool
registration in insertion order. -/
def New (opts : List ConfigOption) : Except GoError Handler :=
  match applyOptions opts initialConfig with
  | .error err => .error (.wrapped "failed to apply option" err)
  | .ok cfg =>
    let server : McpServer :=
      match cfg.server with
      | some s => s
      | none => { impl := { Name := cfg.name, Version := cfg.version } }
    let server := cfg.tools.foldl (fun s reg => reg.registerFunc s) server
    .ok { server := server }

/-- `Handler.GetServer` from `handler.go`: read accessor for the underlying
server. -/
def Handler.GetServer (h : Handler) : McpServer := h.server

/-! ## Theorems -/

/-- C4: a Tool Error with message `m` and non-empty code `c` renders as
exactly `"[c] m"`; with empty code it renders as exactly `m`;
`ValidationError`, `ProcessingError` and `NewToolError` construct Tool
Errors with codes `"VALIDATION_ERROR"`, `"PROCESSING_ERROR"` and empty,
respectively. -/
theorem toolError_rendering (m c : String) (h : c ≠ "") :
    ToolError.Error { Message := m, Code := c } = "[" ++ c ++ "] " ++ m ∧
    ToolError.Error { Message := m, Code := "" } = m ∧
    ValidationError m = { Message := m, Code := "VALIDATION_ERROR" } ∧
    ProcessingError m = { Message := m, Code := "PROCESSING_ERROR" } ∧
    NewToolError m = { Message := m, Code := "" } := by
  refine ⟨?_, ?_, rfl, rfl, rfl⟩
  · simp [ToolError.Error, h]
  · simp [ToolError.Error]

/-- Witness for C4 at message `"boom"`, code `"X"`. -/
theorem toolError_rendering_witness :
    ("X" : String) ≠ "" ∧
    (ToolError.Error { Message := "boom", Code := "X" } = "[X] boom" ∧
      ToolError.Error { Message := "boom", Code := "" } = "boom" ∧
      ValidationError "boom" = { Message := "boom", Code := "VALIDATION_ERROR" } ∧
      ProcessingError "boom" = { Message := "boom", Code := "PROCESSING_ERROR" } ∧
      NewToolError "boom" = { Message := "boom", Code := "" }) :=
  ⟨by decide, toolError_rendering "boom" "X" (by decide)⟩

/-- C1: when the raw tool function returns an error that is a Tool Error
(found by `errors.As`), the raw adapter returns a structured result whose
single text content is exactly the Tool Error's `Message` field, with the
is-error flag set and a nil Go error; when the returned error is not a Tool
Error, the adapter returns a nil result and that error unchanged. -/
theorem rawHandler_toolError_classification
    (decodeErr : String → Option GoError) (fn : RawToolFunc)
    (input out : String) (err : GoError)
    (hfn : fn input = (out, some err)) :
    (∀ te : ToolError, err.asToolError = some te →
        createRawHandler decodeErr fn (.ok input) =
          (some { Content := [te.Message], IsError := true }, none)) ∧
    (err.asToolError = none →
        createRawHandler decodeErr fn (.ok input) = (none, some err)) := by
  constructor
  · intro te hte
    simp [createRawHandler, hfn, hte]
  · intro hne
    simp [createRawHandler, hfn, hne]

/-- Witness for C1: a raw function failing with the Tool Error
`{Message := "boom", Code := "E"}` yields content `"boom"` (not
`"[E] boom"`) with the is-error flag and no Go error. -/
theorem rawHandler_toolError_classification_witness :
    createRawHandler (fun _ => none)
        (fun _ => ("", some (.toolError { Message := "boom", Code := "E" })))
        (.ok "{}") =
      (some { Content := ["boom"], IsError := true }, none) :=
  (rawHandler_toolError_classification (fun _ => none)
      (fun _ => ("", some (.toolError { Message := "boom", Code := "E" })))
      "{}" "" (.toolError { Message := "boom", Code := "E" }) rfl).1
    { Message := "boom", Code := "E" } rfl

/-- C2: when the raw tool function succeeds but its output bytes do not
decode, the raw adapter returns no result and fails with
`errors.Join(ErrInvalidJSON, decodeError)`; when they do decode, the
original bytes are forwarded verbatim as the single text content. -/
theorem rawHandler_invalid_output
    (decodeErr : String → Option GoError) (fn : RawToolFunc)
    (input out : String) (hfn : fn input = (out, none)) :
    (∀ e : GoError, decodeErr out = some e →
        createRawHandler decodeErr fn (.ok input) =
          (none, some (.joined .errInvalidJSON e))) ∧
    (decodeErr out = none →
        createRawHandler decodeErr fn (.ok input) =
          (some { Content := [out], IsError := false }, none)) := by
  constructor
  · intro e he
    simp [createRawHandler, hfn, he]
  · intro hok
    simp [createRawHandler, hfn, hok]

/-- Witness for C2: with a decoder rejecting everything but `"{}"`, output
`"not json"` fails with the joined sentinel and output `"{}"` is forwarded
verbatim. -/
theorem rawHandler_invalid_output_witness :
    createRawHandler
        (fun s => if s = "{}" then none else some (.errorString "bad"))
        (fun _ => ("not json", none)) (.ok "{}") =
      (none, some (.joined .errInvalidJSON (.errorString "bad"))) ∧
    createRawHandler
        (fun s => if s = "{}" then none else some (.errorString "bad"))
        (fun _ => ("{}", none)) (.ok "{}") =
      (some { Content := ["{}"], IsError := false }, none) :=
  ⟨(rawHandler_invalid_output
        (fun s => if s = "{}" then none else some (.errorString "bad"))
        (fun _ => ("not json", none)) "{}" "not json" rfl).1
      (.errorString "bad") (by decide),
    (rawHandler_invalid_output
        (fun s => if s = "{}" then none else some (.errorString "bad"))
        (fun _ => ("{}", none)) "{}" "{}" rfl).2 (by decide)⟩

/-- C3: when serializing the incoming call arguments fails, the raw adapter
returns a structured result with the is-error flag set and a message
describing the failure, with a nil Go error — it does not abort the call. -/
theorem rawHandler_marshal_failure (decodeErr : String → Option GoError)
    (fn : RawToolFunc) (err : GoError) :
    createRawHandler decodeErr fn (.error err) =
      (some { Content := ["Failed to marshal input: " ++ err.render],
              IsError := true }, none) := rfl

/-- C9: the typed adapter's error classification is behaviorally inert —
its result is a function of the user function's result alone: always a nil
structured result, the zero output and the error unchanged on any error
(Tool Error or not), and the output with nil error on success. -/
theorem typedHandler_classification_inert {TIn TOut : Type} [Inhabited TOut]
    (fn : TIn → TOut × Option GoError) (input : TIn) :
    createTypedHandler fn input =
      ((none : Option CallToolResult),
        match fn input with
        | (_, some _) => (default : TOut)
        | (output, none) => output,
        (fn input).2) := by
  rcases h : fn input with ⟨out, err?⟩
  cases err? with
  | none => simp [createTypedHandler, h]
  | some err => cases hte : err.asToolError <;> simp [createTypedHandler, h, hte]

/-- Applying an option list that starts with a successfully-applied prefix
continues from the prefix's resulting configuration. -/
theorem applyOptions_append_ok (pre rest : List ConfigOption)
    (c0 cfg : handlerConfig) (h : applyOptions pre c0 = .ok cfg) :
    applyOptions (pre ++ rest) c0 = applyOptions rest cfg := by
  induction pre generalizing c0 with
  | nil =>
    simp only [applyOptions] at h
    cases h
    rfl
  | cons o pre ih =>
    simp only [applyOptions, List.cons_append] at h ⊢
    cases ho : o c0 with
    | error e => rw [ho] at h; exact absurd h (by simp)
    | ok c => rw [ho] at h; simpa using ih c h

/-- `errors.Is` finds an error in itself. -/
theorem GoError.is_self (e : GoError) : e.is e = true := by
  cases e <;> simp [GoError.is]

/-- C5: each invalid configuration step (empty name, empty version, empty
tool name, nil schema, nil evaluator, nil injected server) fails with its
sentinel error; and whenever a failing step follows a successfully-applied
prefix, `New` aborts at that step (the later steps never applied) with no
handler, returning the sentinel wrapped so that `errors.Is` still matches
it. -/
theorem construction_first_failure_aborts
    (pre post : List ConfigOption) (o : ConfigOption) (s : GoError)
    (cfg : handlerConfig)
    (hpre : applyOptions pre initialConfig = .ok cfg)
    (ho : ∀ c, o c = .error s) :
    (∀ c, WithName "" c = .error .errEmptyName) ∧
    (∀ c, WithVersion "" c = .error .errEmptyVersion) ∧
    (∀ (TIn TOut : Type) (d : String) (fn : Option (TIn → TOut × Option GoError))
        (c : handlerConfig), @WithTool TIn TOut "" d fn c = .error .errEmptyToolName) ∧
    (∀ (d : String) (sch : Option Schema) (fn : Option RawToolFunc) (c : handlerConfig),
        WithRawTool "" d sch fn c = .error .errEmptyToolName) ∧
    (∀ (n d : String) (fn : Option RawToolFunc) (c : handlerConfig), n ≠ "" →
        WithRawTool n d none fn c = .error .errNilSchema) ∧
    (∀ (n d : String) (c : handlerConfig), n ≠ "" →
        WithScriptTool n d none c = .error .errNilEvaluator) ∧
    (∀ c, WithServer none c = .error .errNilServer) ∧
    New (pre ++ o :: post) = .error (.wrapped "failed to apply option" s) ∧
    GoError.is (.wrapped "failed to apply option" s) s = true := by
  refine ⟨fun c => rfl, fun c => rfl, fun TIn TOut d fn c => rfl, fun d sch fn c => rfl,
    ?_, ?_, fun c => rfl, ?_, ?_⟩
  · intro n d fn c hn
    simp [WithRawTool, hn]
  · intro n d c hn
    simp [WithScriptTool, hn]
  · have happ : applyOptions (pre ++ o :: post) initialConfig = .error s := by
      rw [applyOptions_append_ok pre (o :: post) initialConfig cfg hpre]
      simp [applyOptions, ho cfg]
    simp [New, happ]
  · simp [GoError.is, GoError.is_self]

/-- Witness for C5: after a valid set-name step, an empty-version step
aborts construction (the trailing nil-server step is never reached) with
the empty-version sentinel, matched by `errors.Is`. -/
theorem construction_first_failure_aborts_witness :
    New [WithName "srv", WithVersion "", WithServer none] =
      .error (.wrapped "failed to apply option" .errEmptyVersion) ∧
    GoError.is (.wrapped "failed to apply option" .errEmptyVersion) .errEmptyVersion = true :=
  have h := construction_first_failure_aborts [WithName "srv"] [WithServer none]
    (WithVersion "") .errEmptyVersion
    { name := "srv", version := "1.0.0", tools := [], server := none }
    rfl (fun c => rfl)
  ⟨h.2.2.2.2.2.2.2.1, h.2.2.2.2.2.2.2.2⟩

/-- C8: when the applied options leave an injected server in the
configuration, `New` uses exactly that server as the base (never one built
from the record's name/version, even when set-name/set-version steps were
applied), replaying the collected registrations onto it; with no tool
registrations the accessor returns exactly the injected server. -/
theorem injected_server_used (opts : List ConfigOption) (cfg : handlerConfig)
    (s : McpServer) (h : applyOptions opts initialConfig = .ok cfg)
    (hs : cfg.server = some s) :
    New opts = .ok { server := cfg.tools.foldl (fun srv reg => reg.registerFunc srv) s } ∧
    (cfg.tools = [] → ∃ hdl : Handler, New opts = .ok hdl ∧ hdl.GetServer = s) := by
  have h1 : New opts =
      .ok { server := cfg.tools.foldl (fun srv reg => reg.registerFunc srv) s } := by
    simp [New, h, hs]
  refine ⟨h1, fun ht => ⟨{ server := s }, ?_, rfl⟩⟩
  rw [h1, ht]
  rfl

/-- Witness for C8: injecting a server after set-name/set-version steps
yields a handler whose accessor returns exactly the injected server, not
one built from `"other"`/`"9.9"`. -/
theorem injected_server_used_witness :
    ∃ hdl : Handler,
      New [WithName "other", WithVersion "9.9",
          WithServer (some { impl := { Name := "injected", Version := "7" }, tools := [] })] =
        .ok hdl ∧
      hdl.GetServer = { impl := { Name := "injected", Version := "7" }, tools := [] } :=
  (injected_server_used
      [WithName "other", WithVersion "9.9",
        WithServer (some { impl := { Name := "injected", Version := "7" }, tools := [] })]
      { name := "other", version := "9.9", tools := [],
        server := some { impl := { Name := "injected", Version := "7" }, tools := [] } }
      { impl := { Name := "injected", Version := "7" }, tools := [] }
      rfl rfl).2 rfl

/-- A description of one add-tool configuration step with valid arguments:
typed (`WithTool`, here at concrete input/output types since the option's
behavior does not depend on them), raw (`WithRawTool` with a non-nil
schema), or script (`WithScriptTool` with a non-nil evaluator). -/
inductive AddToolStep where
  | typed (name description : String) (fn : Option (Unit → Unit × Option GoError))
  | raw (name description : String) (schema : Schema) (fn : Option RawToolFunc)
  | script (name description : String) (evaluator : ScriptEvaluator)

/-- The tool name of an add-tool step. -/
def AddToolStep.name : AddToolStep → String
  | .typed n _ _ => n
  | .raw n _ _ _ => n
  | .script n _ _ => n

/-- The configuration step an `AddToolStep` describes. -/
def AddToolStep.toOption : AddToolStep → ConfigOption
  | .typed n d fn => WithTool n d fn
  | .raw n d sch fn => WithRawTool n d (some sch) fn
  | .script n d ev => WithScriptTool n d (some ev)

/-- The registration an add-tool step appends to the configuration
record. -/
def AddToolStep.toReg : AddToolStep → toolRegistration
  | .typed n d _ =>
    { registerFunc := fun server =>
        server.AddTool { Name := n, Description := d } .typedHandler }
  | .raw n d sch fn =>
    { registerFunc := fun server =>
        server.AddTool { Name := n, Description := d, InputSchema := some sch }
          (.rawHandler fn) }
  | .script n d ev =>
    { registerFunc := fun server =>
        server.AddTool
          { Name := n, Description := d,
            InputSchema := some { type_ := "object",
                                  Description := "Input data for script execution" } }
          (.rawHandler (some (fun input => ev.Execute input))) }

/-- The tool an add-tool step's registration attaches to the server. -/
def AddToolStep.expected : AddToolStep → ServerTool
  | .typed n d _ =>
    { tool := { Name := n, Description := d }, handler := .typedHandler }
  | .raw n d sch fn =>
    { tool := { Name := n, Description := d, InputSchema := some sch },
      handler := .rawHandler fn }
  | .script n d ev =>
    { tool := { Name := n, Description := d,
                InputSchema := some { type_ := "object",
                                      Description := "Input data for script execution" } },
      handler := .rawHandler (some (fun input => ev.Execute input)) }

/-- An add-tool step with a non-empty name succeeds and appends exactly its
one registration, touching nothing else in the record. -/
theorem addToolStep_applies (s : AddToolStep) (cfg : handlerConfig)
    (h : s.name ≠ "") :
    s.toOption cfg = .ok { cfg with tools := cfg.tools ++ [s.toReg] } := by
  cases s with
  | typed n d fn =>
    simp only [AddToolStep.name] at h
    simp [AddToolStep.toOption, AddToolStep.toReg, WithTool, h]
  | raw n d sch fn =>
    simp only [AddToolStep.name] at h
    simp [AddToolStep.toOption, AddToolStep.toReg, WithRawTool, h]
  | script n d ev =>
    simp only [AddToolStep.name] at h
    simp [AddToolStep.toOption, AddToolStep.toReg, WithScriptTool, WithRawTool, h]

/-- Applying a sequence of valid add-tool steps appends exactly their
registrations, in order. -/
theorem applyOptions_addTools (steps : List AddToolStep) (cfg : handlerConfig)
    (h : ∀ s ∈ steps, s.name ≠ "") :
    applyOptions (steps.map AddToolStep.toOption) cfg =
      .ok { cfg with tools := cfg.tools ++ steps.map AddToolStep.toReg } := by
  induction steps generalizing cfg with
  | nil => simp [applyOptions]
  | cons s steps ih =>
    have h1 := addToolStep_applies s cfg (h s (List.mem_cons_self s steps))
    have h2 := ih { cfg with tools := cfg.tools ++ [s.toReg] }
      (fun t ht => h t (List.mem_cons_of_mem s ht))
    simp only [List.map_cons, applyOptions, h1]
    rw [h2]
    simp

/-- Each add-tool registration, replayed on a server, appends exactly its
expected tool. -/
theorem toReg_registers (s : AddToolStep) (srv : McpServer) :
    s.toReg.registerFunc srv = { srv with tools := srv.tools ++ [s.expected] } := by
  cases s <;> rfl

/-- Replaying the registrations of a step sequence appends the expected
tools in step order. -/
theorem replay_appends (steps : List AddToolStep) (srv : McpServer) :
    (steps.map AddToolStep.toReg).foldl (fun s0 reg => reg.registerFunc s0) srv =
      { srv with tools := srv.tools ++ steps.map AddToolStep.expected } := by
  induction steps generalizing srv with
  | nil => simp
  | cons s steps ih =>
    simp only [List.map_cons, List.foldl_cons]
    rw [toReg_registers, ih]
    simp

/-- The name the server records for a step's tool is the step's name. -/
theorem expected_name (s : AddToolStep) : s.expected.tool.Name = s.name := by
  cases s <;> rfl

/-- C6: a sequence of add-tool steps (typed, raw, or script) with non-empty
names yields exactly one registration per step, replayed against the
constructed runtime instance in exactly the order the steps were supplied —
one registered tool per step, in step order, with no reordering,
deduplication, or rejection of duplicate names (the hypothesis only
excludes empty names). -/
theorem addTool_steps_register_in_order (steps : List AddToolStep)
    (h : ∀ s ∈ steps, s.name ≠ "") :
    New (steps.map AddToolStep.toOption) =
      .ok { server := { impl := { Name := "mcp-server", Version := "1.0.0" },
                        tools := steps.map AddToolStep.expected } } ∧
    (steps.map AddToolStep.expected).length = steps.length ∧
    (steps.map AddToolStep.expected).map (fun t => t.tool.Name) =
      steps.map AddToolStep.name := by
  refine ⟨?_, by simp, ?_⟩
  · simp only [New]
    rw [applyOptions_addTools steps initialConfig h]
    simp [initialConfig, replay_appends]
  · simp only [List.map_map]
    exact List.map_congr_left (fun s _ => expected_name s)

/-- Witness for C6: two steps sharing the name `"a"` plus a script step
all register, in order, with no deduplication. -/
theorem addTool_steps_register_in_order_witness :
    New ([AddToolStep.typed "a" "d1" none,
          AddToolStep.raw "a" "d2" { type_ := "object" } none,
          AddToolStep.script "b" "d3"
            { Execute := fun s => (s, none), GetTimeout := 5 }].map
        AddToolStep.toOption) =
      .ok { server :=
        { impl := { Name := "mcp-server", Version := "1.0.0" },
          tools :=
            [{ tool := { Name := "a", Description := "d1" }, handler := .typedHandler },
             { tool := { Name := "a", Description := "d2",
                         InputSchema := some { type_ := "object" } },
               handler := .rawHandler none },
             { tool :=
                 { Name := "b", Description := "d3",
                   InputSchema :=
                     some { type_ := "object",
                            Description := "Input data for script execution" } },
               handler := .rawHandler (some (fun input => (input, none))) }] } } :=
  (addTool_steps_register_in_order
    [AddToolStep.typed "a" "d1" none,
      AddToolStep.raw "a" "d2" { type_ := "object" } none,
      AddToolStep.script "b" "d3" { Execute := fun s => (s, none), GetTimeout := 5 }]
    (by
      intro s hs
      simp only [List.mem_cons, List.not_mem_nil, or_false] at hs
      rcases hs with rfl | rfl | rfl <;> decide)).1

/-- The property schema `CreateDynamicSchema` builds for one field. -/
def fieldPropSchema (f : FieldDef) : PropSchema :=
  { type_ := f.type_, Description := f.Description, Enum := f.Enum }

/-- The source's guarded enum assignment is the identity on the enum
list. -/
theorem enum_cond_eq (l : List String) : (if l.length > 0 then l else []) = l := by
  cases l <;> simp

/-- The loop body in closed form. -/
theorem dynamicSchemaStep_eq (acc : List (String × PropSchema) × List String)
    (f : FieldDef) :
    dynamicSchemaStep acc f =
      (mapSet acc.1 f.Name (fieldPropSchema f),
        if f.Required then acc.2 ++ [f.Name] else acc.2) := by
  simp [dynamicSchemaStep, fieldPropSchema, enum_cond_eq]

/-- Setting a key absent from the map appends the binding. -/
theorem mapSet_fresh (m : List (String × PropSchema)) (k : String) (v : PropSchema)
    (h : ∀ p ∈ m, p.1 ≠ k) : mapSet m k v = m ++ [(k, v)] := by
  induction m with
  | nil => rfl
  | cons p m ih =>
    have hp : p.1 ≠ k := h p (List.mem_cons_self p m)
    rcases p with ⟨k', v'⟩
    simp only [mapSet]
    rw [if_neg (by simpa using hp)]
    rw [ih (fun q hq => h q (List.mem_cons_of_mem _ hq))]
    simp

/-- The required-list accumulated by the fold: the names flagged required,
in order. -/
theorem required_fold (fields : List FieldDef)
    (acc : List (String × PropSchema) × List String) :
    (fields.foldl dynamicSchemaStep acc).2 =
      acc.2 ++ (fields.filter FieldDef.Required).map FieldDef.Name := by
  induction fields generalizing acc with
  | nil => simp
  | cons f fields ih =>
    simp only [List.foldl_cons]
    rw [ih, dynamicSchemaStep_eq]
    cases hr : f.Required <;> simp [List.filter_cons, hr]

/-- The properties map accumulated by the fold when the field names are
distinct and fresh: one appended entry per field, in order. -/
theorem properties_fold (fields : List FieldDef)
    (m : List (String × PropSchema)) (req : List String)
    (hnd : (fields.map FieldDef.Name).Nodup)
    (hdisj : ∀ p ∈ m, ∀ f ∈ fields, p.1 ≠ f.Name) :
    (fields.foldl dynamicSchemaStep (m, req)).1 =
      m ++ fields.map (fun g => (g.Name, fieldPropSchema g)) := by
  induction fields generalizing m req with
  | nil => simp
  | cons f fields ih =>
    have hnd0 := hnd
    rw [List.map_cons, List.nodup_cons] at hnd0
    have hfresh : ∀ p ∈ m, p.1 ≠ f.Name :=
      fun p hp => hdisj p hp f (List.mem_cons_self f fields)
    have hdisj' : ∀ p ∈ m ++ [(f.Name, fieldPropSchema f)], ∀ g ∈ fields, p.1 ≠ g.Name := by
      intro p hp g hg
      rcases List.mem_append.1 hp with hp | hp
      · exact hdisj p hp g (List.mem_cons_of_mem f hg)
      · simp only [List.mem_singleton] at hp
        subst hp
        intro hEq
        have hEq' : f.Name = g.Name := hEq
        exact hnd0.1 (by
          rw [hEq']
          exact List.mem_map_of_mem FieldDef.Name hg)
    simp only [List.foldl_cons, dynamicSchemaStep_eq]
    rw [mapSet_fresh m f.Name (fieldPropSchema f) hfresh]
    rw [ih (m ++ [(f.Name, fieldPropSchema f)])
      (if f.Required then req ++ [f.Name] else req) hnd0.2 hdisj']
    simp

/-- Looking up a field's name in the assembled properties map returns its
property schema, when the names are distinct. -/
theorem mapGet_entries (fields : List FieldDef) (f : FieldDef) (hf : f ∈ fields)
    (hnd : (fields.map FieldDef.Name).Nodup) :
    mapGet (fields.map (fun g => (g.Name, fieldPropSchema g))) f.Name =
      some (fieldPropSchema f) := by
  induction fields with
  | nil => cases hf
  | cons g fields ih =>
    have hnd0 := hnd
    rw [List.map_cons, List.nodup_cons] at hnd0
    simp only [List.map_cons, mapGet]
    rcases List.mem_cons.1 hf with rfl | hf'
    · rw [if_pos rfl]
    · rw [if_neg ?_]
      · exact ih hf' hnd0.2
      · intro hEq
        exact hnd0.1 (by
          rw [hEq]
          exact List.mem_map_of_mem FieldDef.Name hf')

/-- C7: for distinct field names, `CreateDynamicSchema` returns an
object-typed schema with one property per descriptor (in order) carrying
exactly its type, description and enum values, and a required list holding
exactly the names flagged required in the order encountered; the empty
field list yields an object schema with empty properties and no required
list. -/
theorem createDynamicSchema_correct (fields : List FieldDef)
    (hnd : (fields.map FieldDef.Name).Nodup) :
    (CreateDynamicSchema fields).type_ = "object" ∧
    (CreateDynamicSchema fields).Properties.map Prod.fst = fields.map FieldDef.Name ∧
    (∀ f ∈ fields,
        mapGet (CreateDynamicSchema fields).Properties f.Name =
          some { type_ := f.type_, Description := f.Description, Enum := f.Enum }) ∧
    (CreateDynamicSchema fields).Required =
      (fields.filter FieldDef.Required).map FieldDef.Name ∧
    CreateDynamicSchema [] =
      { type_ := "object", Description := "", Properties := [],
        Required := [], Enum := [] } := by
  have hprops : (CreateDynamicSchema fields).Properties =
      fields.map (fun g => (g.Name, fieldPropSchema g)) := by
    have := properties_fold fields [] [] hnd (by simp)
    simpa [CreateDynamicSchema] using this
  refine ⟨rfl, ?_, ?_, ?_, rfl⟩
  · rw [hprops, List.map_map]
    exact List.map_congr_left (fun g _ => rfl)
  · intro f hf
    rw [hprops]
    exact mapGet_entries fields f hf hnd
  · have := required_fold fields ([], [])
    simpa [CreateDynamicSchema] using this

/-- Witness for C7 at the spec's example: fields `status` (string,
required, enum active/inactive) and `count` (number, optional). -/
theorem createDynamicSchema_correct_witness :
    mapGet (CreateDynamicSchema
        [{ Name := "status", type_ := "string", Description := "", Required := true,
           Enum := ["active", "inactive"] },
         { Name := "count", type_ := "number", Description := "", Required := false }]).Properties
        "status" =
      some { type_ := "string", Description := "", Enum := ["active", "inactive"] } ∧
    mapGet (CreateDynamicSchema
        [{ Name := "status", type_ := "string", Description := "", Required := true,
           Enum := ["active", "inactive"] },
         { Name := "count", type_ := "number", Description := "", Required := false }]).Properties
        "count" =
      some { type_ := "number", Description := "", Enum := [] } ∧
    (CreateDynamicSchema
        [{ Name := "status", type_ := "string", Description := "", Required := true,
           Enum := ["active", "inactive"] },
         { Name := "count", type_ := "number", Description := "", Required := false }]).Required =
      ["status"] ∧
    (CreateDynamicSchema
        [{ Name := "status", type_ := "string", Description := "", Required := true,
           Enum := ["active", "inactive"] },
         { Name := "count", type_ := "number", Description := "", Required := false }]).type_ =
      "object" :=
  have h := createDynamicSchema_correct
    [{ Name := "status", type_ := "string", Description := "", Required := true,
       Enum := ["active", "inactive"] },
     { Name := "count", type_ := "number", Description := "", Required := false }]
    (by decide)
  ⟨h.2.2.1 _ (List.mem_cons_self _ _),
   h.2.2.1 _ (List.mem_cons_of_mem _ (List.mem_cons_self _ _)),
   h.2.2.2.1, h.1⟩

/-- One configuration step of the library, as a description: the six
`With*` option constructors with their arguments (the typed variant at
concrete input/output types, on which its behavior does not depend). -/
inductive LibOption where
  | nameOpt (s : String)
  | versionOpt (s : String)
  | toolOpt (n d : String) (fn : Option (Unit → Unit × Option GoError))
  | rawToolOpt (n d : String) (schema : Option Schema) (fn : Option RawToolFunc)
  | scriptToolOpt (n d : String) (ev : Option ScriptEvaluator)
  | serverOpt (s : Option McpServer)

/-- The configuration step a `LibOption` describes. -/
def LibOption.toOption : LibOption → ConfigOption
  | .nameOpt s => WithName s
  | .versionOpt s => WithVersion s
  | .toolOpt n d fn => WithTool n d fn
  | .rawToolOpt n d sch fn => WithRawTool n d sch fn
  | .scriptToolOpt n d ev => WithScriptTool n d ev
  | .serverOpt s => WithServer s

/-- Every error produced by a library configuration step is one of the six
configuration sentinels — in particular never the nil-function sentinel. -/
theorem libOption_error_cases (lo : LibOption) (cfg : handlerConfig) (err : GoError)
    (h : lo.toOption cfg = .error err) :
    err = .errEmptyName ∨ err = .errEmptyVersion ∨ err = .errEmptyToolName ∨
    err = .errNilSchema ∨ err = .errNilEvaluator ∨ err = .errNilServer := by
  cases lo with
  | nameOpt s =>
    simp only [LibOption.toOption, WithName] at h
    split at h
    · cases h; exact Or.inl rfl
    · simp at h
  | versionOpt s =>
    simp only [LibOption.toOption, WithVersion] at h
    split at h
    · cases h; exact Or.inr (Or.inl rfl)
    · simp at h
  | toolOpt n d fn =>
    simp only [LibOption.toOption, WithTool] at h
    split at h
    · cases h; exact Or.inr (Or.inr (Or.inl rfl))
    · simp at h
  | rawToolOpt n d sch fn =>
    simp only [LibOption.toOption, WithRawTool] at h
    split at h
    · cases h; exact Or.inr (Or.inr (Or.inl rfl))
    · split at h
      · cases h; exact Or.inr (Or.inr (Or.inr (Or.inl rfl)))
      · simp at h
  | scriptToolOpt n d ev =>
    simp only [LibOption.toOption, WithScriptTool, WithRawTool] at h
    split at h
    · cases h; exact Or.inr (Or.inr (Or.inl rfl))
    · split at h
      · cases h; exact Or.inr (Or.inr (Or.inr (Or.inr (Or.inl rfl))))
      · simp at h
  | serverOpt s =>
    simp only [LibOption.toOption, WithServer] at h
    split at h
    · cases h; exact Or.inr (Or.inr (Or.inr (Or.inr (Or.inr rfl))))
    · simp at h

/-- A failing option-application run fails at some option in the list. -/
theorem applyOptions_error_source (los : List LibOption) (c0 : handlerConfig)
    (e : GoError)
    (h : applyOptions (los.map LibOption.toOption) c0 = .error e) :
    ∃ lo ∈ los, ∃ c, lo.toOption c = .error e := by
  induction los generalizing c0 with
  | nil => simp [applyOptions] at h
  | cons lo los ih =>
    simp only [List.map_cons, applyOptions] at h
    cases hlo : lo.toOption c0 with
    | error e' =>
      rw [hlo] at h
      simp at h
      exact ⟨lo, List.mem_cons_self lo los, c0, by rw [hlo, h]⟩
    | ok c =>
      rw [hlo] at h
      obtain ⟨lo', hmem, c', hc'⟩ := ih c (by simpa using h)
      exact ⟨lo', List.mem_cons_of_mem lo hmem, c', hc'⟩

/-- C10: no configuration step validates the user-supplied function — a
typed tool with a nil function and a raw tool with a non-nil schema and a
nil function both register successfully (appending one registration), and
no construction from library options ever fails with an error matching the
nil-function sentinel. -/
theorem nil_function_never_checked :
    (∀ (TIn TOut : Type) (n d : String) (cfg : handlerConfig), n ≠ "" →
        ∃ cfg', @WithTool TIn TOut n d none cfg = .ok cfg' ∧
          cfg'.tools.length = cfg.tools.length + 1) ∧
    (∀ (n d : String) (sch : Schema) (cfg : handlerConfig), n ≠ "" →
        ∃ cfg', WithRawTool n d (some sch) none cfg = .ok cfg' ∧
          cfg'.tools.length = cfg.tools.length + 1) ∧
    (∀ (los : List LibOption) (err : GoError),
        New (los.map LibOption.toOption) = .error err →
        err.is .errNilFunction = false) := by
  refine ⟨?_, ?_, ?_⟩
  · intro TIn TOut n d cfg hn
    have hreg := addToolStep_applies (AddToolStep.typed n d none) cfg hn
    exact ⟨_, hreg, by simp⟩
  · intro n d sch cfg hn
    have hreg := addToolStep_applies (AddToolStep.raw n d sch none) cfg hn
    exact ⟨_, hreg, by simp⟩
  · intro los err h
    simp only [New] at h
    cases happ : applyOptions (los.map LibOption.toOption) initialConfig with
    | ok cfg => rw [happ] at h; simp at h
    | error e =>
      rw [happ] at h
      simp only [Except.error.injEq] at h
      subst h
      obtain ⟨lo, _, c, hc⟩ := applyOptions_error_source los initialConfig e happ
      rcases libOption_error_cases lo c e hc with rfl | rfl | rfl | rfl | rfl | rfl <;>
        decide

/-- Witness for C10: a typed tool with a nil function and a raw tool with a
nil function both register; a construction failing on a nil server yields
an error not matching the nil-function sentinel. -/
theorem nil_function_never_checked_witness :
    (∃ cfg', @WithTool Unit Unit "t" "d" none initialConfig = .ok cfg' ∧
        cfg'.tools.length = initialConfig.tools.length + 1) ∧
    (∃ cfg', WithRawTool "t" "d" (some { type_ := "object" }) none initialConfig = .ok cfg' ∧
        cfg'.tools.length = initialConfig.tools.length + 1) ∧
    GoError.is (.wrapped "failed to apply option" .errNilServer) .errNilFunction = false :=
  ⟨nil_function_never_checked.1 Unit Unit "t" "d" initialConfig (by decide),
    nil_function_never_checked.2.1 "t" "d" { type_ := "object" } initialConfig (by decide),
    nil_function_never_checked.2.2 [LibOption.serverOpt none]
      (.wrapped "failed to apply option" .errNilServer) rfl⟩

end Mcpio
